import Mathlib

/-
  Verification development for the puzzle bot core (src/puzzleBot.js).

  Modelling conventions:
  * JavaScript numbers are modelled as rationals where the code performs
    real arithmetic, and as naturals with explicit mod 2^32 where the code
    relies on 32-bit integer coercions (the seeded RNG).  All bitwise JS
    operators coerce their operands to 32-bit integers; on the unsigned
    bit patterns (naturals below 2^32) the JS operations coincide with
    Nat.xor, Nat.shiftRight, Nat.lor, and multiplication or addition
    followed by mod 2^32, which is how they are written here.
  * JS strings are modelled as lists of characters (JStr).  The JS regex
    splits on [.!?]+ and [,:;]+ produce the same non-empty trimmed pieces
    as a character-wise split followed by dropping empty pieces, which is
    how splitSentences and the clause split are written.  Char.isWhitespace
    and Char.toLower differ from the JS \s class and toLowerCase outside
    ASCII; the claims settled here do not depend on that difference.
  * SVG path strings are modelled at the data level (PathDatum): the
    two-point branch of lineToPath keeps its endpoints, and the d3-shape
    curveBasis generator (external library) is modelled as the constructor
    PathDatum.curve applied to the control points; for a non-empty point
    list d3 always returns a non-empty string, so the curve case is never
    the empty string filtered out by filter(Boolean), which is modelled by
    lineToPath returning an Option.
-/

namespace PuzzleBot

/-- JS strings, modelled as lists of characters. -/
abbrev JStr := List Char

/-! ## Seeded RNG (createRng, src lines 150-158) -/

/-- The 32-bit modulus used by the bitwise coercions inside the rand closure. -/
def U32 : Nat := 4294967296

/-- createRng(seed): the initial internal state of the returned closure is
seed >>> 0, i.e. the unsigned 32-bit reduction of the (finite) seed. -/
def createRng (seed : Nat) : Nat := seed % U32

/-- One call of the rand closure returned by createRng: advances the state by
0x6d2b79f5 and mixes it, returning the new state and a value in [0,1).
The JS code does not truncate the stored state, but every use of the state
goes through a 32-bit coercion and the increment commutes with mod 2^32,
so keeping the state reduced mod 2^32 is observationally identical. -/
def rngRand (state : Nat) : Nat × ℚ :=
  let s := (state + 0x6d2b79f5) % U32
  let r1 := ((s ^^^ (s >>> 15)) * (s ||| 1)) % U32
  let r2 := r1 ^^^ ((r1 + ((r1 ^^^ (r1 >>> 7)) * (r1 ||| 61)) % U32) % U32)
  let r3 := r2 ^^^ (r2 >>> 14)
  (s, (r3 : ℚ) / 4294967296)

/-- randomBetween(rng, min, max) = rng() * (max - min) + min. -/
def randomBetween (st : Nat) (lo hi : ℚ) : Nat × ℚ :=
  let r := rngRand st
  (r.1, r.2 * (hi - lo) + lo)

/-! ## Edge sampling (edgeDistributions, buildDistributions, src lines 164-230) -/

/-- The per-edge record {points, amp, sign} built by edgeDistributions and
buildDistributions. -/
structure EdgeLine where
  points : List (ℚ × ℚ)
  amp : ℚ
  sign : Int
  deriving DecidableEq

/-- edgeDistributions(rng): samples the six control points of one interior
edge.  baselineOffsets: x in [51,62], y in [-15,5]; upperOffsets: x in
[20,30], y in [20,44].  The rand calls happen in source order (p2.x, p2.y,
p3.x, p3.y, p4.x, p4.y, p5.x, p5.y, then the sign draw). -/
def edgeDistributions (st : Nat) : Nat × EdgeLine :=
  let c1 := randomBetween st 51 62
  let c2 := randomBetween c1.1 (-15) 5
  let c3 := randomBetween c2.1 20 30
  let c4 := randomBetween c3.1 20 44
  let c5 := randomBetween c4.1 (100 - 30) (100 - 20)
  let c6 := randomBetween c5.1 20 44
  let c7 := randomBetween c6.1 (100 - 62) (100 - 51)
  let c8 := randomBetween c7.1 (-15) 5
  let c9 := rngRand c8.1
  let sign : Int := if c9.2 < 0.5 then -1 else 1
  let pts : List (ℚ × ℚ) :=
    [(0, 0), (c1.2, c2.2), (c3.2, c4.2), (c5.2, c6.2), (c7.2, c8.2), (100, 0)]
  let normalized := pts.map (fun p => (p.1 / 100, p.2 / 100))
  let amp := normalized.foldl (fun m p => max m |p.2|) 0
  let points := normalized.map (fun p => (p.1, p.2 * (sign : ℚ)))
  (c9.1, { points := points, amp := amp, sign := sign })

/-- The flat border edge pushed for row 0 and row rowCount. -/
def flatEdgeLine : EdgeLine := { points := [(0, 0), (1, 0)], amp := 0, sign := 0 }

/-- The inner loop of buildDistributions: one group of columnCount sampled
edges, threading the RNG state left to right. -/
def sampleEdgeRow : Nat → Nat → Nat × List EdgeLine
  | 0, st => (st, [])
  | n + 1, st =>
    let e := edgeDistributions st
    let rest := sampleEdgeRow n e.1
    (rest.1, e.2 :: rest.2)

/-- The outer loop of buildDistributions: k sampled groups (rows 1 .. rowCount-1). -/
def sampleEdgeRows : Nat → Nat → Nat → Nat × List (List EdgeLine)
  | 0, _, st => (st, [])
  | k + 1, colCount, st =>
    let g := sampleEdgeRow colCount st
    let rest := sampleEdgeRows k colCount g.1
    (rest.1, g.2 :: rest.2)

/-- buildDistributions(rowCount, columnCount, rng): a flat border group, the
sampled interior groups, and a final flat border group. -/
def buildDistributions (rowCount columnCount : Nat) (st : Nat) :
    Nat × List (List EdgeLine) :=
  let mids := sampleEdgeRows (rowCount - 1) columnCount st
  (mids.1,
    List.replicate columnCount flatEdgeLine ::
      (mids.2 ++ [List.replicate columnCount flatEdgeLine]))

/-! ## Geometry assembly (src lines 232-288) -/

/-- transposePoint([x,y]) = [y,x]. -/
def transposePoint (p : ℚ × ℚ) : ℚ × ℚ := (p.2, p.1)

/-- offsetPoint(point, offsetX, offsetY, columnWidth, rowHeight). -/
def offsetPoint (p : ℚ × ℚ) (offsetX offsetY columnWidth rowHeight : ℚ) : ℚ × ℚ :=
  ((p.1 + offsetX) * columnWidth, (p.2 + offsetY) * rowHeight)

/-- offsetPoints(lineGroups, offsetFn): maps offsetFn(point, groupIndex,
indexInGroup) over every control point. -/
def offsetPoints (lineGroups : List (List EdgeLine))
    (offsetFn : ℚ × ℚ → Nat → Nat → ℚ × ℚ) : List (List (List (ℚ × ℚ))) :=
  lineGroups.mapIdx (fun i lines =>
    lines.mapIdx (fun j l => l.points.map (fun p => offsetFn p i j)))

/-- A renderable path, at the data level (see the header comment). -/
inductive PathDatum where
  | seg : ℚ × ℚ → ℚ × ℚ → PathDatum
  | curve : List (ℚ × ℚ) → PathDatum
  deriving DecidableEq

/-- lineToPath(points): two points give a straight M/L segment; three or more
give the d3 curveBasis path (modelled as PathDatum.curve, always non-empty);
fewer than two points would throw in JS (modelled as none, and the curve
generator returning the empty string is also modelled as none being absent). -/
def lineToPath (points : List (ℚ × ℚ)) : Option PathDatum :=
  match points with
  | [] => none
  | [_] => none
  | [a, b] => some (PathDatum.seg a b)
  | _ => some (PathDatum.curve points)

/-- One entry of the edge metadata grid: {ampPx, sign}. -/
structure EdgePx where
  ampPx : ℚ
  sign : Int
  deriving DecidableEq

/-- The edge metadata grid returned by buildPuzzleData. -/
structure EdgeMeta where
  horizontal : List (List EdgePx)
  vertical : List (List EdgePx)
  deriving DecidableEq

/-- The result of buildPuzzleData. -/
structure PuzzleData where
  paths : List PathDatum
  edgeMeta : EdgeMeta
  deriving DecidableEq

/-- buildPuzzleData(width, height, rows, cols, seed), for a finite seed
(the non-finite branch replaces the seed by Math.random() and is outside
every claim considered here). -/
def buildPuzzleData (width height : ℚ) (rows cols : Nat) (seed : Nat) : PuzzleData :=
  let st0 := createRng seed
  let rowHeight := height / (rows : ℚ)
  let columnWidth := width / (cols : ℚ)
  let rl := buildDistributions rows cols st0
  let rowsLines := rl.2
  let cl := buildDistributions cols rows rl.1
  let columnsLines := cl.2
  let safetyFactor : ℚ := 1.05
  let horizontalEdges := rowsLines.map (fun lines =>
    lines.map (fun l => ({ ampPx := l.amp * rowHeight * safetyFactor, sign := l.sign } : EdgePx)))
  let verticalEdges := columnsLines.map (fun lines =>
    lines.map (fun l => ({ ampPx := l.amp * columnWidth * safetyFactor, sign := l.sign } : EdgePx)))
  let rowsOffset := offsetPoints rowsLines
    (fun p i j => offsetPoint p (j : ℚ) (i : ℚ) columnWidth rowHeight)
  let columnsOffset := offsetPoints columnsLines
    (fun p i j => offsetPoint (transposePoint p) (i : ℚ) (j : ℚ) columnWidth rowHeight)
  let allLines := rowsOffset.flatten ++ columnsOffset.flatten
  { paths := (allLines.map lineToPath).reduceOption,
    edgeMeta := { horizontal := horizontalEdges, vertical := verticalEdges } }

/-! ## Safe-zone calculator (getSafeBox, getTextPadding, src lines 555-621) -/

/-- The lookup grid[i]?.[j] used by getSafeBox: undefined (none) when either
index is out of range. -/
def lookup2 (grid : List (List EdgePx)) (i j : Nat) : Option EdgePx :=
  grid[i]?.bind (fun row => row[j]?)

/-- The safePadding computed at the top of getSafeBox: basePadding when it is
a finite number (some), else max(10, floor(min(cellWidth, cellHeight) * 0.14)). -/
def getSafePadding (cellWidth cellHeight : ℚ) (basePadding : Option ℚ) : ℚ :=
  match basePadding with
  | some p => p
  | none => ((max 10 ⌊min cellWidth cellHeight * 0.14⌋ : ℤ) : ℚ)

/-- The four per-side insets accumulated by getSafeBox before the box is
assembled. -/
structure Insets where
  top : ℚ
  bottom : ℚ
  left : ℚ
  right : ℚ
  deriving DecidableEq

/-- The inset computation of getSafeBox (src lines 558-589): every side starts
at safePadding; a side gains min(ampPx, 0.18 * relevant cell dimension) when
the adjacent edge exists and its sign points into this cell (top edge sign > 0,
bottom edge sign < 0, left edge sign > 0, right edge sign < 0).  edgeMeta is
optional (the JS code guards with edgeMeta?.horizontal / edgeMeta?.vertical). -/
def getSafeBoxInsets (row col : Nat) (cellWidth cellHeight : ℚ) (rows cols : Nat)
    (edgeMeta : Option EdgeMeta) (basePadding : Option ℚ) : Insets :=
  let safePadding := getSafePadding cellWidth cellHeight basePadding
  let maxInsetX := cellWidth * 0.18
  let maxInsetY := cellHeight * 0.18
  let topInset :=
    match edgeMeta with
    | none => safePadding
    | some meta =>
      if 0 < row then
        match lookup2 meta.horizontal row col with
        | some edge =>
          if 0 < edge.sign then safePadding + min edge.ampPx maxInsetY else safePadding
        | none => safePadding
      else safePadding
  let bottomInset :=
    match edgeMeta with
    | none => safePadding
    | some meta =>
      if row < rows - 1 then
        match lookup2 meta.horizontal (row + 1) col with
        | some edge =>
          if edge.sign < 0 then safePadding + min edge.ampPx maxInsetY else safePadding
        | none => safePadding
      else safePadding
  let leftInset :=
    match edgeMeta with
    | none => safePadding
    | some meta =>
      if 0 < col then
        match lookup2 meta.vertical col row with
        | some edge =>
          if 0 < edge.sign then safePadding + min edge.ampPx maxInsetX else safePadding
        | none => safePadding
      else safePadding
  let rightInset :=
    match edgeMeta with
    | none => safePadding
    | some meta =>
      if col < cols - 1 then
        match lookup2 meta.vertical (col + 1) row with
        | some edge =>
          if edge.sign < 0 then safePadding + min edge.ampPx maxInsetX else safePadding
        | none => safePadding
      else safePadding
  { top := topInset, bottom := bottomInset, left := leftInset, right := rightInset }

/-- The record returned by getSafeBox. -/
structure CellSafeBox where
  left : ℚ
  right : ℚ
  top : ℚ
  bottom : ℚ
  width : ℚ
  height : ℚ
  centerX : ℚ
  centerY : ℚ
  deriving DecidableEq

/-- getSafeBox(row, col, cellWidth, cellHeight, rows, cols, edgeMeta,
basePadding): inset the raw cell rectangle, then fall back to the centered
10 percent .. 90 percent band on an axis whose safe extent dropped below 10. -/
def getSafeBox (row col : Nat) (cellWidth cellHeight : ℚ) (rows cols : Nat)
    (edgeMeta : Option EdgeMeta) (basePadding : Option ℚ) : CellSafeBox :=
  let leftBase := (col : ℚ) * cellWidth
  let topBase := (row : ℚ) * cellHeight
  let ins := getSafeBoxInsets row col cellWidth cellHeight rows cols edgeMeta basePadding
  let left0 := leftBase + ins.left
  let right0 := leftBase + cellWidth - ins.right
  let top0 := topBase + ins.top
  let bottom0 := topBase + cellHeight - ins.bottom
  let lr :=
    if right0 - left0 < 10 then (leftBase + cellWidth * 0.1, leftBase + cellWidth * 0.9)
    else (left0, right0)
  let tb :=
    if bottom0 - top0 < 10 then (topBase + cellHeight * 0.1, topBase + cellHeight * 0.9)
    else (top0, bottom0)
  let width := lr.2 - lr.1
  let height := tb.2 - tb.1
  { left := lr.1, right := lr.2, top := tb.1, bottom := tb.2,
    width := width, height := height,
    centerX := lr.1 + width / 2, centerY := tb.1 + height / 2 }

/-- getTextPadding(box) = max(4, floor(min(box.width, box.height) * 0.08)). -/
def getTextPadding (box : CellSafeBox) : ℚ :=
  ((max 4 ⌊min box.width box.height * 0.08⌋ : ℤ) : ℚ)

/-! ## Text layout (src lines 356-439) -/

/-- The whitespace test used for the JS regex class (see header comment). -/
def isWs (c : Char) : Bool := c.isWhitespace

/-- Character-wise split on a separator class (used to model the JS regex
splits; empty pieces between adjacent separators are produced and later
filtered, which matches splitting on a + quantified class). -/
def splitBy (p : Char → Bool) : List Char → List (List Char)
  | [] => [[]]
  | c :: rest =>
    let r := splitBy p rest
    if p c then [] :: r
    else
      match r with
      | [] => [[c]]
      | g :: gs => (c :: g) :: gs

/-- String.prototype.trim. -/
def trimChars (s : JStr) : JStr := ((s.dropWhile isWs).reverse.dropWhile isWs).reverse

/-- text.replace(whitespace-runs, one space).trim().split(one space): the list
of whitespace-delimited words.  The cleaned text is empty iff this is []. -/
def splitWs (s : JStr) : List JStr := (splitBy isWs s).filter (fun w => w ≠ [])

/-- measureTextWidth(text, fontSize): delegated to the optional font-metrics
capability (textToSvg); text.length * fontSize * 0.6 when it is absent. -/
def measureTextWidth (textToSvg : Option (JStr → ℤ → ℚ)) (text : JStr)
    (fontSize : ℤ) : ℚ :=
  match textToSvg with
  | none => (text.length : ℚ) * (fontSize : ℚ) * 0.6
  | some getMetrics => getMetrics text fontSize

/-- The reason string attached by wrapTextByWidth to an overlong word. -/
def wordTooLong : JStr := "word_too_long".toList

/-- The result of wrapTextByWidth. -/
structure WrapResult where
  lines : List JStr
  truncated : Bool
  reason : Option JStr := none
  deriving DecidableEq

/-- The word loop of wrapTextByWidth: greedy wrap, with an early truncated
return when a single word exceeds maxWidth on its own. -/
def wrapWords (textToSvg : Option (JStr → ℤ → ℚ)) (maxWidth : ℚ) (fontSize : ℤ) :
    List JStr → JStr → List JStr → WrapResult
  | [], current, lines =>
    if current ≠ [] then { lines := lines ++ [current], truncated := false }
    else { lines := lines, truncated := false }
  | word :: ws, current, lines =>
    let next := if current = [] then word else current ++ [' '] ++ word
    if measureTextWidth textToSvg next fontSize ≤ maxWidth then
      wrapWords textToSvg maxWidth fontSize ws next lines
    else
      let lines2 := if current ≠ [] then lines ++ [current] else lines
      if measureTextWidth textToSvg word fontSize ≤ maxWidth then
        wrapWords textToSvg maxWidth fontSize ws word lines2
      else
        { lines := lines2 ++ [word], truncated := true, reason := some wordTooLong }

/-- wrapTextByWidth(text, maxWidth, fontSize). -/
def wrapTextByWidth (textToSvg : Option (JStr → ℤ → ℚ)) (text : JStr)
    (maxWidth : ℚ) (fontSize : ℤ) : WrapResult :=
  let words := splitWs text
  if words = [] then { lines := [[]], truncated := false }
  else wrapWords textToSvg maxWidth fontSize words [] []

/-- PUZZLE_MIN_FONT_SIZE with its default env value. -/
def MIN_FONT_SIZE : ℤ := 12

/-- PUZZLE_MAX_FONT_SIZE with its default env value. -/
def MAX_FONT_SIZE : ℤ := 28

/-- PUZZLE_MAX_LINES with its default env value. -/
def MAX_TEXT_LINES : ℤ := 3

/-- The result of fitTextToCell. -/
structure FitResult where
  lines : List JStr
  truncated : Bool
  fontSize : ℤ
  lineHeight : ℚ
  maxLines : ℤ
  maxChars : ℤ
  deriving DecidableEq

/-- The return value of fitTextToCell after the search loop: the last attempt
marked truncated, or the hard fallback when the loop never ran. -/
def fitFinal (text : JStr) : Option FitResult → FitResult
  | some last => { last with truncated := true }
  | none =>
    { lines := [text], truncated := true, fontSize := MIN_FONT_SIZE,
      lineHeight := (MIN_FONT_SIZE : ℚ) * 1.2, maxLines := 1, maxChars := 4 }

/-- The font-size search loop of fitTextToCell (src lines 406-428); the fuel
argument models the attempt < 40 bound.  Note that the loop recomputes
truncation from the wrapped line count alone (lines.length > maxLines); the
truncated flag returned by wrapTextByWidth is dropped. -/
def fitLoop (textToSvg : Option (JStr → ℤ → ℚ)) (text : JStr)
    (cellWidth cellHeight padding : ℚ) (scaledMin : ℤ) :
    Nat → ℤ → Option FitResult → FitResult
  | 0, _, last => fitFinal text last
  | fuel + 1, fontSize, last =>
    if fontSize < scaledMin then fitFinal text last
    else
      let lineHeight := (fontSize : ℚ) * 1.2
      let heightLines : ℤ := max 1 ⌊(cellHeight - padding * 2) / lineHeight⌋
      let maxLines : ℤ := max 1 (min heightLines MAX_TEXT_LINES)
      let maxWidth : ℚ := max 10 (cellWidth - padding * 2)
      let wrapped := wrapTextByWidth textToSvg text maxWidth fontSize
      let truncated : Bool := decide (maxLines < (wrapped.lines.length : ℤ))
      let lines := if truncated then wrapped.lines.take maxLines.toNat else wrapped.lines
      let res : FitResult :=
        { lines := lines, truncated := truncated, fontSize := fontSize,
          lineHeight := lineHeight, maxLines := maxLines, maxChars := 0 }
      if truncated then
        fitLoop textToSvg text cellWidth cellHeight padding scaledMin fuel (fontSize - 1) (some res)
      else res

/-- fitTextToCell(text, cellWidth, cellHeight, paddingOverride, fontScale),
with the default env configuration (minFont 12, maxFont 28, max 3 lines).
paddingOverride models the Number.isFinite(paddingOverride) guard, fontScale
the Number.isFinite(fontScale) guard (none of the claims involve a non-finite
fontScale, so it is taken as a rational). -/
def fitTextToCell (textToSvg : Option (JStr → ℤ → ℚ)) (text : JStr)
    (cellWidth cellHeight : ℚ) (paddingOverride : Option ℚ) (fontScale : ℚ) :
    FitResult :=
  let minSide := min cellWidth cellHeight
  let padding : ℚ :=
    match paddingOverride with
    | some p => p
    | none => ((max 8 ⌊minSide * 0.08⌋ : ℤ) : ℚ)
  let minFont := MIN_FONT_SIZE
  let maxFont := MAX_FONT_SIZE
  let scale := fontScale
  let scaledMin : ℤ := max 10 minFont
  let scaledMax : ℤ := max scaledMin ⌊(maxFont : ℚ) * scale⌋
  let fontSize0 : ℤ := min scaledMax (max scaledMin ⌊minSide * 0.2 * scale⌋)
  fitLoop textToSvg text cellWidth cellHeight padding scaledMin 40 fontSize0 none

/-! ## Auto-rewrite reducer (src lines 456-553) -/

/-- The STOPWORDS set (src lines 456-511). -/
def STOPWORDS : List JStr :=
  [ "и".toList, "а".toList, "но".toList, "или".toList, "что".toList,
    "как".toList, "когда".toList, "где".toList, "это".toList, "этот".toList,
    "эта".toList, "эти".toList, "тот".toList, "та".toList, "те".toList,
    "не".toList, "на".toList, "в".toList, "во".toList, "по".toList,
    "за".toList, "из".toList, "у".toList, "о".toList, "об".toList,
    "про".toList, "для".toList, "то".toList, "же".toList, "бы".toList,
    "ли".toList, "ну".toList, "да".toList, "нет".toList,
    "the".toList, "a".toList, "an".toList, "of".toList, "to".toList,
    "in".toList, "on".toList, "for".toList, "with".toList, "and".toList,
    "or".toList, "but".toList, "is".toList, "are".toList, "was".toList,
    "were".toList, "be".toList, "been".toList, "as".toList, "at".toList ]

/-- word.toLowerCase() (ASCII case mapping; see the header comment). -/
def toLowerChars (s : JStr) : JStr := s.map Char.toLower

/-- splitSentences(text): split on runs of . ! ?, trim, drop empties. -/
def splitSentences (text : JStr) : List JStr :=
  ((splitBy (fun c => c == '.' || c == '!' || c == '?') text).map trimChars).filter
    (fun s => s ≠ [])

/-- The clause split inside autoRewriteFact: split on runs of , : ;, trim,
drop empties. -/
def splitClauses (text : JStr) : List JStr :=
  ((splitBy (fun c => c == ',' || c == ':' || c == ';') text).map trimChars).filter
    (fun s => s ≠ [])

/-- The stopword filter of autoRewriteFact: keep words whose lowercase form is
longer than 2 and not a stopword. -/
def filterStopwords (words : List JStr) : List JStr :=
  words.filter (fun w =>
    decide (2 < (toLowerChars w).length) && !(STOPWORDS.contains (toLowerChars w)))

/-- The result of autoRewriteFact; successes leave the failed key absent
(modelled as false). -/
structure RewriteResult where
  text : JStr
  changed : Bool
  fit : FitResult
  failed : Bool := false
  deriving DecidableEq

/-- The tryFit closure of autoRewriteFact. -/
def rewriteTryFit (textToSvg : Option (JStr → ℤ → ℚ)) (safeBox : CellSafeBox)
    (fontScale : ℚ) (candidate : JStr) : FitResult :=
  fitTextToCell textToSvg candidate safeBox.width safeBox.height
    (some (getTextPadding safeBox)) fontScale

/-- autoRewriteFact(text, safeBox, fontScale): original text, then each
sentence, then each clause, then the stopword-filtered text guarded by the
60 percent retention check; first untruncated fit wins, else failed. -/
def autoRewriteFact (textToSvg : Option (JStr → ℤ → ℚ)) (text : JStr)
    (safeBox : CellSafeBox) (fontScale : ℚ) : RewriteResult :=
  let tryFit := rewriteTryFit textToSvg safeBox fontScale
  let ok := fun (candidate : JStr) => !(tryFit candidate).truncated
  if ok text then { text := text, changed := false, fit := tryFit text }
  else
    match (splitSentences text).find? ok with
    | some sentence => { text := sentence, changed := true, fit := tryFit sentence }
    | none =>
      match (splitClauses text).find? ok with
      | some clause => { text := clause, changed := true, fit := tryFit clause }
      | none =>
        let filtered := filterStopwords (splitWs text)
        if filtered ≠ [] then
          let candidate := List.intercalate [' '] filtered
          let retention : ℚ := (candidate.length : ℚ) / max 1 (text.length : ℚ)
          if decide (0.6 ≤ retention) && ok candidate then
            { text := candidate, changed := true, fit := tryFit candidate }
          else { text := text, changed := false, fit := tryFit text, failed := true }
        else { text := text, changed := false, fit := tryFit text, failed := true }

/-- The ordered candidate list that autoRewriteFact works through (stated from
the spec wording of 4.6 for claim C6): the original text, the sentences, the
clauses, and the stopword-filtered text when it is non-empty and retains at
least 60 percent of the characters. -/
def autoRewriteCandidates (text : JStr) : List JStr :=
  let filtered := filterStopwords (splitWs text)
  let candidate := List.intercalate [' '] filtered
  let retention : ℚ := (candidate.length : ℚ) / max 1 (text.length : ℚ)
  [text] ++ splitSentences text ++ splitClauses text ++
    (if filtered ≠ [] ∧ 0.6 ≤ retention then [candidate] else [])

/-! ## Mirroring (mirrorFacts, src lines 623-633) -/

/-- mirrorFacts(facts, rows, cols): mirrored[r*cols + (cols-1-c)] =
facts[r*cols + c] || "".  The JS Array(facts.length) holes are modelled as
the empty string and a write past the end as a no-op; neither is observable
when facts.length = rows*cols, the situation of every claim about mirroring
(every slot is then written exactly once, in bounds). -/
def mirrorFacts (facts : List JStr) (rows cols : Nat) : List JStr :=
  (List.range rows).foldl
    (fun acc r =>
      (List.range cols).foldl
        (fun acc2 c => acc2.set (r * cols + (cols - 1 - c)) (facts.getD (r * cols + c) []))
        acc)
    (List.replicate facts.length [])

/-! ## Theorems -/

/-- splitBy on a list without separator characters returns the single piece. -/
theorem splitBy_eq_single {p : Char → Bool} :
    ∀ (l : List Char), (∀ c ∈ l, p c = false) → splitBy p l = [l] := by
  intro l h
  induction l with
  | nil => rfl
  | cons c rest ih =>
    have hc : p c = false := h c (by simp)
    have hrest := ih (fun d hd => h d (by simp [hd]))
    simp [splitBy, hc, hrest]

/-- The inner sampling loop returns as many edges as requested. -/
theorem sampleEdgeRow_length (n : Nat) : ∀ st, (sampleEdgeRow n st).2.length = n := by
  induction n with
  | zero => intro st; rfl
  | succ n ih => intro st; simp [sampleEdgeRow, ih]

/-- The outer sampling loop returns as many groups as requested. -/
theorem sampleEdgeRows_length (k cc : Nat) : ∀ st, (sampleEdgeRows k cc st).2.length = k := by
  induction k with
  | zero => intro st; rfl
  | succ k ih => intro st; simp [sampleEdgeRows, ih]

/-- Every group produced by the outer sampling loop has colCount edges. -/
theorem sampleEdgeRows_mem_length (k cc : Nat) :
    ∀ st g, g ∈ (sampleEdgeRows k cc st).2 → g.length = cc := by
  induction k with
  | zero => intro st g hg; simp [sampleEdgeRows] at hg
  | succ k ih =>
    intro st g hg
    simp only [sampleEdgeRows, List.mem_cons] at hg
    rcases hg with rfl | hg
    · exact sampleEdgeRow_length cc st
    · exact ih _ g hg

/-- Every edge produced by the inner sampling loop is an edgeDistributions
output. -/
theorem sampleEdgeRow_mem (n : Nat) :
    ∀ st e, e ∈ (sampleEdgeRow n st).2 → ∃ s, e = (edgeDistributions s).2 := by
  induction n with
  | zero => intro st e he; simp [sampleEdgeRow] at he
  | succ n ih =>
    intro st e he
    simp only [sampleEdgeRow, List.mem_cons] at he
    rcases he with rfl | he
    · exact ⟨st, rfl⟩
    · exact ih _ e he

/-- Every edge inside the outer sampling loop is an edgeDistributions output. -/
theorem sampleEdgeRows_mem (k cc : Nat) :
    ∀ st g, g ∈ (sampleEdgeRows k cc st).2 → ∀ e ∈ g, ∃ s, e = (edgeDistributions s).2 := by
  induction k with
  | zero => intro st g hg; simp [sampleEdgeRows] at hg
  | succ k ih =>
    intro st g hg e he
    simp only [sampleEdgeRows, List.mem_cons] at hg
    rcases hg with rfl | hg
    · exact sampleEdgeRow_mem cc st e he
    · exact ih _ g hg e he

/-- buildDistributions returns rowCount + 1 groups when rowCount ≥ 1. -/
theorem buildDistributions_length (rc cc st : Nat) (h : 1 ≤ rc) :
    (buildDistributions rc cc st).2.length = rc + 1 := by
  simp [buildDistributions, sampleEdgeRows_length]
  omega

/-- Every group of buildDistributions has columnCount edges. -/
theorem buildDistributions_mem_length (rc cc st : Nat) :
    ∀ g ∈ (buildDistributions rc cc st).2, g.length = cc := by
  intro g hg
  simp only [buildDistributions] at hg
  rcases List.mem_cons.mp hg with rfl | hg2
  · exact List.length_replicate cc flatEdgeLine
  · rcases List.mem_append.mp hg2 with hmid | hlast
    · exact sampleEdgeRows_mem_length _ cc _ g hmid
    · rw [List.mem_singleton] at hlast
      subst hlast
      exact List.length_replicate cc flatEdgeLine

/-- Every edge of buildDistributions is either the flat border edge or an
edgeDistributions output. -/
theorem buildDistributions_mem (rc cc st : Nat) :
    ∀ g ∈ (buildDistributions rc cc st).2, ∀ e ∈ g,
      e = flatEdgeLine ∨ ∃ s, e = (edgeDistributions s).2 := by
  intro g hg e he
  simp only [buildDistributions] at hg
  rcases List.mem_cons.mp hg with rfl | hg2
  · exact Or.inl (List.eq_of_mem_replicate he)
  · rcases List.mem_append.mp hg2 with hmid | hlast
    · exact Or.inr (sampleEdgeRows_mem _ cc _ g hmid e he)
    · rw [List.mem_singleton] at hlast
      subst hlast
      exact Or.inl (List.eq_of_mem_replicate he)

/-- The first buildDistributions group is the flat border group. -/
theorem buildDistributions_first (rc cc st : Nat) :
    ((buildDistributions rc cc st).2)[0]? = some (List.replicate cc flatEdgeLine) := by
  simp only [buildDistributions]
  exact List.getElem?_cons_zero

/-- The last buildDistributions group (index rowCount) is the flat border
group. -/
theorem buildDistributions_last (rc cc st : Nat) (h : 1 ≤ rc) :
    ((buildDistributions rc cc st).2)[rc]? = some (List.replicate cc flatEdgeLine) := by
  simp only [buildDistributions]
  generalize hm : (sampleEdgeRows (rc - 1) cc st).2 = mids
  have hlen : mids.length = rc - 1 := by rw [← hm]; exact sampleEdgeRows_length _ cc st
  have hk : rc = mids.length + 1 := by omega
  rw [hk, List.getElem?_cons_succ, List.getElem?_concat_length]

/-- The horizontal metadata of buildPuzzleData, unfolded. -/
theorem buildPuzzleData_horizontal (w h : ℚ) (rows cols seed : Nat) :
    (buildPuzzleData w h rows cols seed).edgeMeta.horizontal =
      (buildDistributions rows cols (createRng seed)).2.map (fun lines =>
        lines.map (fun l =>
          ({ ampPx := l.amp * (h / (rows : ℚ)) * 1.05, sign := l.sign } : EdgePx))) := rfl

/-- The vertical metadata of buildPuzzleData, unfolded. -/
theorem buildPuzzleData_vertical (w h : ℚ) (rows cols seed : Nat) :
    (buildPuzzleData w h rows cols seed).edgeMeta.vertical =
      (buildDistributions cols rows
          (buildDistributions rows cols (createRng seed)).1).2.map (fun lines =>
        lines.map (fun l =>
          ({ ampPx := l.amp * (w / (cols : ℚ)) * 1.05, sign := l.sign } : EdgePx))) := rfl

/-- Looking up a flat border group of mapped metadata yields the zero entry. -/
theorem lookup2_map_flat {bd : List (List EdgeLine)} {dim : ℚ} {i j : Nat} {e : EdgePx}
    {cc : Nat}
    (hbd : bd[i]? = some (List.replicate cc flatEdgeLine))
    (h : lookup2 (bd.map (fun lines => lines.map (fun l =>
        ({ ampPx := l.amp * dim * 1.05, sign := l.sign } : EdgePx)))) i j = some e) :
    e.ampPx = 0 ∧ e.sign = 0 := by
  rw [lookup2] at h
  obtain ⟨row, hrow, hj⟩ := Option.bind_eq_some.mp h
  rw [List.getElem?_map, hbd, Option.map_some'] at hrow
  have he : e ∈ row := List.getElem?_mem hj
  rw [← Option.some_inj.mp hrow] at he
  obtain ⟨l, hl, rfl⟩ := List.mem_map.mp he
  have : l = flatEdgeLine := List.eq_of_mem_replicate hl
  subst this
  simp [flatEdgeLine]

/-- Claim C7: for every rows ≥ 1, cols ≥ 1 and every seed, the edgeMeta of
buildPuzzleData has horizontal metadata with rows+1 groups of cols entries,
vertical metadata with cols+1 groups of rows entries, and the first and last
group of each (the border rows and cols) contain only entries with ampPx = 0
and sign = 0. -/
theorem buildPuzzleData_edgeMeta_shape (w h : ℚ) (rows cols seed : Nat)
    (hr : 1 ≤ rows) (hc : 1 ≤ cols) :
    (buildPuzzleData w h rows cols seed).edgeMeta.horizontal.length = rows + 1 ∧
    (∀ g ∈ (buildPuzzleData w h rows cols seed).edgeMeta.horizontal, g.length = cols) ∧
    (buildPuzzleData w h rows cols seed).edgeMeta.vertical.length = cols + 1 ∧
    (∀ g ∈ (buildPuzzleData w h rows cols seed).edgeMeta.vertical, g.length = rows) ∧
    (∀ j e, lookup2 (buildPuzzleData w h rows cols seed).edgeMeta.horizontal 0 j = some e →
      e.ampPx = 0 ∧ e.sign = 0) ∧
    (∀ j e, lookup2 (buildPuzzleData w h rows cols seed).edgeMeta.horizontal rows j = some e →
      e.ampPx = 0 ∧ e.sign = 0) ∧
    (∀ j e, lookup2 (buildPuzzleData w h rows cols seed).edgeMeta.vertical 0 j = some e →
      e.ampPx = 0 ∧ e.sign = 0) ∧
    (∀ j e, lookup2 (buildPuzzleData w h rows cols seed).edgeMeta.vertical cols j = some e →
      e.ampPx = 0 ∧ e.sign = 0) := by
  have hH : (buildPuzzleData w h rows cols seed).edgeMeta.horizontal = _ :=
    buildPuzzleData_horizontal w h rows cols seed
  have hV : (buildPuzzleData w h rows cols seed).edgeMeta.vertical = _ :=
    buildPuzzleData_vertical w h rows cols seed
  refine ⟨?_, ?_, ?_, ?_, ?_, ?_, ?_, ?_⟩
  · rw [hH, List.length_map, buildDistributions_length rows cols _ hr]
  · intro g hg
    rw [hH] at hg
    obtain ⟨g0, hg0, rfl⟩ := List.mem_map.mp hg
    rw [List.length_map]
    exact buildDistributions_mem_length rows cols _ g0 hg0
  · rw [hV, List.length_map, buildDistributions_length cols rows _ hc]
  · intro g hg
    rw [hV] at hg
    obtain ⟨g0, hg0, rfl⟩ := List.mem_map.mp hg
    rw [List.length_map]
    exact buildDistributions_mem_length cols rows _ g0 hg0
  · intro j e he
    rw [hH] at he
    exact lookup2_map_flat (buildDistributions_first rows cols _) he
  · intro j e he
    rw [hH] at he
    exact lookup2_map_flat (buildDistributions_last rows cols _ hr) he
  · intro j e he
    rw [hV] at he
    exact lookup2_map_flat (buildDistributions_first cols rows _) he
  · intro j e he
    rw [hV] at he
    exact lookup2_map_flat (buildDistributions_last cols rows _ hc) he

/-- Witness for C7 at the end-to-end spec instance: 1200x900, rows=3, cols=4,
seed 42, giving horizontal metadata shaped [4][4], vertical shaped [5][3],
with flat entries in border group 0 (checked at index (0,2)). -/
theorem buildPuzzleData_edgeMeta_shape_witness :
    (buildPuzzleData 1200 900 3 4 42).edgeMeta.horizontal.length = 3 + 1 ∧
    (buildPuzzleData 1200 900 3 4 42).edgeMeta.vertical.length = 4 + 1 ∧
    ((lookup2 (buildPuzzleData 1200 900 3 4 42).edgeMeta.horizontal 0 2).getD
        { ampPx := 1, sign := 1 }).ampPx = 0 ∧
    ((lookup2 (buildPuzzleData 1200 900 3 4 42).edgeMeta.horizontal 0 2).getD
        { ampPx := 1, sign := 1 }).sign = 0 := by
  have H := buildPuzzleData_edgeMeta_shape 1200 900 3 4 42 (by norm_num) (by norm_num)
  have hlook : lookup2 (buildPuzzleData 1200 900 3 4 42).edgeMeta.horizontal 0 2 =
      some { ampPx := 0, sign := 0 } := by
    rw [buildPuzzleData_horizontal, lookup2, List.getElem?_map, buildDistributions_first]
    simp [flatEdgeLine]
  exact ⟨H.1, H.2.2.1, by simp [hlook], by simp [hlook]⟩

/-- The rand closure yields values in [0,1): the mixed 32-bit result is below
2^32 and is divided by 2^32. -/
theorem rngRand_mem (st : Nat) : 0 ≤ (rngRand st).2 ∧ (rngRand st).2 < 1 := by
  have key : ∀ x : Nat, x < U32 → 0 ≤ (x : ℚ) / 4294967296 ∧ (x : ℚ) / 4294967296 < 1 := by
    intro x hx
    constructor
    · positivity
    · rw [div_lt_one (by norm_num)]
      have hx2 : (x : ℚ) < (U32 : ℚ) := by exact_mod_cast hx
      have hU2 : ((U32 : Nat) : ℚ) = 4294967296 := by norm_num [U32]
      linarith
  have hU : U32 = 2 ^ 32 := by norm_num [U32]
  have hUpos : 0 < U32 := by norm_num [U32]
  refine key _ ?_
  set s := (st + 0x6d2b79f5) % U32 with hs
  set r1 := ((s ^^^ (s >>> 15)) * (s ||| 1)) % U32 with hr1
  set inner := ((r1 ^^^ (r1 >>> 7)) * (r1 ||| 61)) % U32 with hinner
  have h1 : r1 < U32 := Nat.mod_lt _ hUpos
  have hsum : (r1 + inner) % U32 < U32 := Nat.mod_lt _ hUpos
  have h2 : r1 ^^^ ((r1 + inner) % U32) < U32 := by
    rw [hU]
    exact Nat.xor_lt_two_pow (hU ▸ h1) (hU ▸ hsum)
  have hshift : (r1 ^^^ ((r1 + inner) % U32)) >>> 14 < U32 := by
    calc (r1 ^^^ ((r1 + inner) % U32)) >>> 14 ≤ r1 ^^^ ((r1 + inner) % U32) := by
          rw [Nat.shiftRight_eq_div_pow]
          exact Nat.div_le_self _ _
      _ < U32 := h2
  rw [hU]
  exact Nat.xor_lt_two_pow (hU ▸ h2) (hU ▸ hshift)

/-- randomBetween stays inside the requested closed interval. -/
theorem randomBetween_mem (st : Nat) (lo hi : ℚ) (h : lo ≤ hi) :
    lo ≤ (randomBetween st lo hi).2 ∧ (randomBetween st lo hi).2 ≤ hi := by
  obtain ⟨h0, h1⟩ := rngRand_mem st
  constructor
  · show lo ≤ (rngRand st).2 * (hi - lo) + lo
    nlinarith
  · show (rngRand st).2 * (hi - lo) + lo ≤ hi
    nlinarith

/-- The amplitude fold of edgeDistributions, over abstract control-point
values with the ranges of the baseline and shoulder offsets. -/
theorem amp_formula (x2 y2 x3 y3 x4 y4 x5 y5 : ℚ)
    (h2 : -15 ≤ y2 ∧ y2 ≤ 5) (h3 : 20 ≤ y3 ∧ y3 ≤ 44)
    (h4 : 20 ≤ y4 ∧ y4 ≤ 44) (h5 : -15 ≤ y5 ∧ y5 ≤ 5) :
    0 ≤ (([((0 : ℚ), (0 : ℚ)), (x2, y2), (x3, y3), (x4, y4), (x5, y5),
        (100, 0)].map (fun p => (p.1 / 100, p.2 / 100))).foldl
        (fun m p => max m |p.2|) 0) ∧
    (([((0 : ℚ), (0 : ℚ)), (x2, y2), (x3, y3), (x4, y4), (x5, y5),
        (100, 0)].map (fun p => (p.1 / 100, p.2 / 100))).foldl
        (fun m p => max m |p.2|) 0) ≤ 0.44 := by
  simp only [List.map_cons, List.map_nil, List.foldl_cons, List.foldl_nil]
  constructor
  · exact le_trans (abs_nonneg _) (le_max_right _ _)
  · refine max_le (max_le (max_le (max_le (max_le (max_le (by norm_num) ?_) ?_) ?_) ?_)
      ?_) ?_
    · rw [abs_div]
      norm_num
    · rw [abs_le]
      constructor <;> [linarith [h2.1]; linarith [h2.2]]
    · rw [abs_le]
      constructor <;> [linarith [h3.1]; linarith [h3.2]]
    · rw [abs_le]
      constructor <;> [linarith [h4.1]; linarith [h4.2]]
    · rw [abs_le]
      constructor <;> [linarith [h5.1]; linarith [h5.2]]
    · rw [abs_div]
      norm_num

/-- The sampled amplitude of an interior edge lies in [0, 0.44]: the baseline
control points have normalized offsets in [-0.15, 0.05] and the shoulder
points in [0.2, 0.44]. -/
theorem edgeDistributions_amp (st : Nat) :
    0 ≤ (edgeDistributions st).2.amp ∧ (edgeDistributions st).2.amp ≤ 0.44 :=
  amp_formula _ _ _ _ _ _ _ _
    (randomBetween_mem (randomBetween st 51 62).1 (-15) 5 (by norm_num))
    (randomBetween_mem
      (randomBetween (randomBetween (randomBetween st 51 62).1 (-15) 5).1 20 30).1 20 44
      (by norm_num))
    (randomBetween_mem
      (randomBetween (randomBetween (randomBetween (randomBetween (randomBetween st 51
        62).1 (-15) 5).1 20 30).1 20 44).1 (100 - 30) (100 - 20)).1 20 44 (by norm_num))
    (randomBetween_mem
      (randomBetween (randomBetween (randomBetween (randomBetween (randomBetween
        (randomBetween (randomBetween st 51 62).1 (-15) 5).1 20 30).1 20 44).1 (100 - 30)
        (100 - 20)).1 20 44).1 (100 - 62) (100 - 51)).1 (-15) 5 (by norm_num))

/-- Every edge of buildDistributions has non-negative amplitude at most 0.44. -/
theorem buildDistributions_amp (rc cc st : Nat) :
    ∀ g ∈ (buildDistributions rc cc st).2, ∀ e ∈ g,
      0 ≤ e.amp ∧ e.amp ≤ 0.44 := by
  intro g hg e he
  rcases buildDistributions_mem rc cc st g hg e he with rfl | ⟨s, rfl⟩
  · norm_num [flatEdgeLine]
  · exact edgeDistributions_amp s

/-- Membership form of lookup2: a successful lookup is a mapped entry of a
member group. -/
theorem lookup2_map_mem {bd : List (List EdgeLine)} {F : EdgeLine → EdgePx}
    {i j : Nat} {e : EdgePx}
    (h : lookup2 (bd.map (fun lines => lines.map F)) i j = some e) :
    ∃ g ∈ bd, ∃ l ∈ g, e = F l := by
  rw [lookup2] at h
  obtain ⟨row, hrow, hj⟩ := Option.bind_eq_some.mp h
  rw [List.getElem?_map] at hrow
  obtain ⟨g, hg, hmap⟩ := Option.map_eq_some'.mp hrow
  have hgmem : g ∈ bd := List.getElem?_mem hg
  have he : e ∈ row := List.getElem?_mem hj
  rw [← hmap] at he
  obtain ⟨l, hl, rfl⟩ := List.mem_map.mp he
  exact ⟨g, hgmem, l, hl, rfl⟩

/-- Claim C8: for every rows ≥ 1, cols ≥ 1, positive width and height, and
every seed, every edgeMeta entry of buildPuzzleData has ampPx at most the
relevant cell dimension (row height height/rows for horizontal edges, column
width width/cols for vertical edges): the normalized amplitude is at most
0.44 and 0.44 * 1.05 = 0.462 < 1. -/
theorem buildPuzzleData_amp_bound (w h : ℚ) (rows cols seed : Nat)
    (hr : 1 ≤ rows) (hc : 1 ≤ cols) (hw : 0 < w) (hh : 0 < h) :
    (∀ i j e, lookup2 (buildPuzzleData w h rows cols seed).edgeMeta.horizontal i j = some e →
      e.ampPx ≤ h / (rows : ℚ)) ∧
    (∀ i j e, lookup2 (buildPuzzleData w h rows cols seed).edgeMeta.vertical i j = some e →
      e.ampPx ≤ w / (cols : ℚ)) := by
  have hrh : 0 < h / (rows : ℚ) := by
    apply div_pos hh
    exact_mod_cast Nat.lt_of_lt_of_le Nat.zero_lt_one hr
  have hcw : 0 < w / (cols : ℚ) := by
    apply div_pos hw
    exact_mod_cast Nat.lt_of_lt_of_le Nat.zero_lt_one hc
  constructor
  · intro i j e he
    rw [buildPuzzleData_horizontal] at he
    obtain ⟨g, hg, l, hl, rfl⟩ := lookup2_map_mem he
    obtain ⟨ha0, ha44⟩ := buildDistributions_amp rows cols _ g hg l hl
    show l.amp * (h / (rows : ℚ)) * 1.05 ≤ h / (rows : ℚ)
    nlinarith
  · intro i j e he
    rw [buildPuzzleData_vertical] at he
    obtain ⟨g, hg, l, hl, rfl⟩ := lookup2_map_mem he
    obtain ⟨ha0, ha44⟩ := buildDistributions_amp cols rows _ g hg l hl
    show l.amp * (w / (cols : ℚ)) * 1.05 ≤ w / (cols : ℚ)
    nlinarith

/-- Witness for C8 at 1200x900, rows=3, cols=4, seed 42, checked at the border
entry (0,0) whose ampPx is 0 ≤ 900/3. -/
theorem buildPuzzleData_amp_bound_witness :
    (0 : ℚ) < 1200 ∧ (0 : ℚ) < 900 ∧
    ((lookup2 (buildPuzzleData 1200 900 3 4 42).edgeMeta.horizontal 0 0).getD
        { ampPx := 1, sign := 1 }).ampPx ≤ 900 / ((3 : Nat) : ℚ) := by
  have H := (buildPuzzleData_amp_bound 1200 900 3 4 42 (by norm_num) (by norm_num)
    (by norm_num) (by norm_num)).1
  have hlook : lookup2 (buildPuzzleData 1200 900 3 4 42).edgeMeta.horizontal 0 0 =
      some { ampPx := 0, sign := 0 } := by
    rw [buildPuzzleData_horizontal, lookup2, List.getElem?_map, buildDistributions_first]
    simp [flatEdgeLine]
  refine ⟨by norm_num, by norm_num, ?_⟩
  have := H 0 0 _ hlook
  simpa [hlook] using this

/-- Flatten of a list whose groups all have length k. -/
theorem flatten_length_uniform {α : Type} (l : List (List α)) (k : Nat)
    (h : ∀ g ∈ l, g.length = k) : l.flatten.length = l.length * k := by
  induction l with
  | nil => simp
  | cons g gs ih =>
    simp only [List.flatten_cons, List.length_append, List.length_cons]
    rw [h g (by simp), ih (fun g2 hg2 => h g2 (by simp [hg2])), Nat.succ_mul,
      Nat.add_comm]

/-- offsetPoints preserves the grid shape, so its flattening has one point
list per edge. -/
theorem offsetPoints_flatten_length (gs : List (List EdgeLine))
    (f : ℚ × ℚ → Nat → Nat → ℚ × ℚ) (k : Nat) (h : ∀ g ∈ gs, g.length = k) :
    (offsetPoints gs f).flatten.length = gs.length * k := by
  rw [flatten_length_uniform _ k, offsetPoints, List.length_mapIdx]
  intro G hG
  rw [offsetPoints] at hG
  obtain ⟨i, hi, rfl⟩ := List.mem_mapIdx.mp hG
  rw [List.length_mapIdx]
  exact h _ (List.getElem_mem hi)

/-- Every point list in the flattened offsetPoints grid is the image of the
points of some edge of the input groups. -/
theorem offsetPoints_flatten_mem (gs : List (List EdgeLine))
    (f : ℚ × ℚ → Nat → Nat → ℚ × ℚ) :
    ∀ pts ∈ (offsetPoints gs f).flatten,
      ∃ g ∈ gs, ∃ l ∈ g, pts.length = l.points.length := by
  intro pts hpts
  obtain ⟨G, hG, hmem⟩ := List.mem_flatten.mp hpts
  rw [offsetPoints] at hG
  obtain ⟨i, hi, rfl⟩ := List.mem_mapIdx.mp hG
  obtain ⟨j, hj, rfl⟩ := List.mem_mapIdx.mp hmem
  refine ⟨gs[i], List.getElem_mem hi, gs[i][j], List.getElem_mem hj, ?_⟩
  rw [List.length_map]

/-- reduceOption after mapping a function that never returns none keeps the
full length. -/
theorem reduceOption_map_length {α β : Type} (l : List α) (f : α → Option β)
    (h : ∀ a ∈ l, (f a).isSome) : ((l.map f).reduceOption).length = l.length := by
  induction l with
  | nil => simp
  | cons a l ih =>
    obtain ⟨b, hb⟩ := Option.isSome_iff_exists.mp (h a (by simp))
    rw [List.map_cons, hb, List.reduceOption_cons_of_some, List.length_cons,
      List.length_cons, ih (fun x hx => h x (by simp [hx]))]

/-- lineToPath produces a path for every two-point and six-point line. -/
theorem lineToPath_isSome {pts : List (ℚ × ℚ)}
    (h : pts.length = 2 ∨ pts.length = 6) : (lineToPath pts).isSome := by
  match pts, h with
  | [a, b], _ => rfl
  | a :: b :: c :: rest, h =>
    show (some (PathDatum.curve _)).isSome
    rfl

/-- The points of every buildDistributions edge number 2 (flat borders) or
6 (sampled interior edges). -/
theorem buildDistributions_points (rc cc st : Nat) :
    ∀ g ∈ (buildDistributions rc cc st).2, ∀ l ∈ g,
      l.points.length = 2 ∨ l.points.length = 6 := by
  intro g hg l hl
  rcases buildDistributions_mem rc cc st g hg l hl with rfl | ⟨s, rfl⟩
  · left; rfl
  · right
    show ((edgeDistributions s).2.points).length = 6
    rw [edgeDistributions]
    simp

/-- The path list of buildPuzzleData, unfolded. -/
theorem buildPuzzleData_paths (w h : ℚ) (rows cols seed : Nat) :
    (buildPuzzleData w h rows cols seed).paths =
      (((offsetPoints (buildDistributions rows cols (createRng seed)).2
            (fun p i j => offsetPoint p (j : ℚ) (i : ℚ) (w / (cols : ℚ)) (h / (rows : ℚ)))).flatten ++
        (offsetPoints (buildDistributions cols rows
              (buildDistributions rows cols (createRng seed)).1).2
            (fun p i j => offsetPoint (transposePoint p) (i : ℚ) (j : ℚ) (w / (cols : ℚ))
              (h / (rows : ℚ)))).flatten).map lineToPath).reduceOption := rfl

/-- Amended claim C9: for rows ≥ 1, cols ≥ 1, positive width and height and
every seed, buildPuzzleData returns exactly (rows+1)*cols + (cols+1)*rows
paths - one per horizontal and vertical edge, border segments included (which
together form the outer rectangle); there is no separate outer-rectangle
path. -/
theorem buildPuzzleData_paths_count (w h : ℚ) (rows cols seed : Nat)
    (hr : 1 ≤ rows) (hc : 1 ≤ cols) (hw : 0 < w) (hh : 0 < h) :
    (buildPuzzleData w h rows cols seed).paths.length =
      (rows + 1) * cols + (cols + 1) * rows := by
  rw [buildPuzzleData_paths, reduceOption_map_length, List.length_append,
    offsetPoints_flatten_length _ _ cols (buildDistributions_mem_length rows cols _),
    offsetPoints_flatten_length _ _ rows (buildDistributions_mem_length cols rows _),
    buildDistributions_length rows cols _ hr, buildDistributions_length cols rows _ hc]
  intro pts hpts
  rcases List.mem_append.mp hpts with hmem | hmem
  · obtain ⟨g, hg, l, hl, hlen⟩ := offsetPoints_flatten_mem _ _ pts hmem
    exact lineToPath_isSome (hlen ▸ buildDistributions_points rows cols _ g hg l hl)
  · obtain ⟨g, hg, l, hl, hlen⟩ := offsetPoints_flatten_mem _ _ pts hmem
    exact lineToPath_isSome (hlen ▸ buildDistributions_points cols rows _ g hg l hl)

/-- Witness for the amended C9 at 100x100, rows=1, cols=1, seed 0: four paths. -/
theorem buildPuzzleData_paths_count_witness :
    (buildPuzzleData 100 100 1 1 0).paths.length = (1 + 1) * 1 + (1 + 1) * 1 :=
  buildPuzzleData_paths_count 100 100 1 1 0 (by norm_num) (by norm_num) (by norm_num)
    (by norm_num)

/-- The safe padding is non-negative when basePadding is non-negative or
defaulted. -/
theorem getSafePadding_nonneg (cw ch : ℚ) (bp : Option ℚ)
    (hbp : ∀ p, bp = some p → 0 ≤ p) : 0 ≤ getSafePadding cw ch bp := by
  rcases bp with _ | p
  · show (0 : ℚ) ≤ ((max 10 ⌊min cw ch * 0.14⌋ : ℤ) : ℚ)
    have : (0 : ℤ) ≤ max 10 ⌊min cw ch * 0.14⌋ :=
      le_trans (by norm_num) (le_max_left _ _)
    exact_mod_cast this
  · exact hbp p rfl

/-- All four insets are non-negative when the padding is non-negative and
every present metadata entry has non-negative ampPx. -/
theorem getSafeBoxInsets_nonneg (row col rows cols : Nat) (cw ch : ℚ)
    (meta : Option EdgeMeta) (bp : Option ℚ) (hw : 0 < cw) (hh : 0 < ch)
    (hbp : ∀ p, bp = some p → 0 ≤ p)
    (hH : ∀ m, meta = some m → ∀ i j e, lookup2 m.horizontal i j = some e → 0 ≤ e.ampPx)
    (hV : ∀ m, meta = some m → ∀ i j e, lookup2 m.vertical i j = some e → 0 ≤ e.ampPx) :
    0 ≤ (getSafeBoxInsets row col cw ch rows cols meta bp).top ∧
    0 ≤ (getSafeBoxInsets row col cw ch rows cols meta bp).bottom ∧
    0 ≤ (getSafeBoxInsets row col cw ch rows cols meta bp).left ∧
    0 ≤ (getSafeBoxInsets row col cw ch rows cols meta bp).right := by
  have hpad := getSafePadding_nonneg cw ch bp hbp
  have hdx : (0 : ℚ) ≤ cw * 0.18 := by linarith
  have hdy : (0 : ℚ) ≤ ch * 0.18 := by linarith
  rcases meta with _ | m
  · exact ⟨hpad, hpad, hpad, hpad⟩
  · simp only [getSafeBoxInsets]
    refine ⟨?_, ?_, ?_, ?_⟩
    · split_ifs
      · rcases hE : lookup2 m.horizontal row col with _ | e <;> simp only [hE]
        · exact hpad
        · split_ifs
          · exact add_nonneg hpad (le_min (hH m rfl _ _ _ hE) hdy)
          · exact hpad
      · exact hpad
    · split_ifs
      · rcases hE : lookup2 m.horizontal (row + 1) col with _ | e <;> simp only [hE]
        · exact hpad
        · split_ifs
          · exact add_nonneg hpad (le_min (hH m rfl _ _ _ hE) hdy)
          · exact hpad
      · exact hpad
    · split_ifs
      · rcases hE : lookup2 m.vertical col row with _ | e <;> simp only [hE]
        · exact hpad
        · split_ifs
          · exact add_nonneg hpad (le_min (hV m rfl _ _ _ hE) hdx)
          · exact hpad
      · exact hpad
    · split_ifs
      · rcases hE : lookup2 m.vertical (col + 1) row with _ | e <;> simp only [hE]
        · exact hpad
        · split_ifs
          · exact add_nonneg hpad (le_min (hV m rfl _ _ _ hE) hdx)
          · exact hpad
      · exact hpad

/-- Claim C4: for every cell of a grid with positive cell width and height and
any edge metadata and base padding, getSafeBox is non-degenerate (width and
height strictly positive), and whenever the inset-derived safe width or safe
height falls below 10, the corresponding axis is replaced by the centered band
covering 80 percent of the raw cell. -/
theorem getSafeBox_nondegenerate (row col rows cols : Nat) (cw ch : ℚ)
    (meta : Option EdgeMeta) (bp : Option ℚ) (hw : 0 < cw) (hh : 0 < ch) :
    (0 < (getSafeBox row col cw ch rows cols meta bp).width ∧
     0 < (getSafeBox row col cw ch rows cols meta bp).height) ∧
    (cw - (getSafeBoxInsets row col cw ch rows cols meta bp).left
        - (getSafeBoxInsets row col cw ch rows cols meta bp).right < 10 →
      (getSafeBox row col cw ch rows cols meta bp).left = (col : ℚ) * cw + cw * 0.1 ∧
      (getSafeBox row col cw ch rows cols meta bp).right = (col : ℚ) * cw + cw * 0.9 ∧
      (getSafeBox row col cw ch rows cols meta bp).width = cw * 0.8) ∧
    (ch - (getSafeBoxInsets row col cw ch rows cols meta bp).top
        - (getSafeBoxInsets row col cw ch rows cols meta bp).bottom < 10 →
      (getSafeBox row col cw ch rows cols meta bp).top = (row : ℚ) * ch + ch * 0.1 ∧
      (getSafeBox row col cw ch rows cols meta bp).bottom = (row : ℚ) * ch + ch * 0.9 ∧
      (getSafeBox row col cw ch rows cols meta bp).height = ch * 0.8) := by
  simp only [getSafeBox]
  set I := getSafeBoxInsets row col cw ch rows cols meta bp with hI
  split_ifs with hx hy hy <;>
    refine ⟨⟨?_, ?_⟩, fun hfall => ⟨?_, ?_, ?_⟩, fun hfall => ⟨?_, ?_, ?_⟩⟩ <;>
    try dsimp only
  all_goals
    first
    | rfl
    | ring1
    | linarith

/-- Witness for C4 on a 100x100 cell with no metadata and default padding. -/
theorem getSafeBox_nondegenerate_witness :
    (0 : ℚ) < 100 ∧
    0 < (getSafeBox 0 0 100 100 1 1 none none).width ∧
    0 < (getSafeBox 0 0 100 100 1 1 none none).height := by
  have H := getSafeBox_nondegenerate 0 0 1 1 100 100 none none (by norm_num) (by norm_num)
  exact ⟨by norm_num, H.1.1, H.1.2⟩

/-- Amended claim C10: with positive cell dimensions, a non-negative (or
defaulted) base padding, and metadata whose present entries have non-negative
ampPx, the safe box lies inside the raw cell, with strictly positive extent. -/
theorem getSafeBox_within_cell (row col rows cols : Nat) (cw ch : ℚ)
    (meta : Option EdgeMeta) (bp : Option ℚ) (hw : 0 < cw) (hh : 0 < ch)
    (hbp : ∀ p, bp = some p → 0 ≤ p)
    (hH : ∀ m, meta = some m → ∀ i j e, lookup2 m.horizontal i j = some e → 0 ≤ e.ampPx)
    (hV : ∀ m, meta = some m → ∀ i j e, lookup2 m.vertical i j = some e → 0 ≤ e.ampPx) :
    (col : ℚ) * cw ≤ (getSafeBox row col cw ch rows cols meta bp).left ∧
    (getSafeBox row col cw ch rows cols meta bp).left <
      (getSafeBox row col cw ch rows cols meta bp).right ∧
    (getSafeBox row col cw ch rows cols meta bp).right ≤ ((col : ℚ) + 1) * cw ∧
    (row : ℚ) * ch ≤ (getSafeBox row col cw ch rows cols meta bp).top ∧
    (getSafeBox row col cw ch rows cols meta bp).top <
      (getSafeBox row col cw ch rows cols meta bp).bottom ∧
    (getSafeBox row col cw ch rows cols meta bp).bottom ≤ ((row : ℚ) + 1) * ch := by
  obtain ⟨hit, hib, hil, hir⟩ := getSafeBoxInsets_nonneg row col rows cols cw ch meta bp
    hw hh hbp hH hV
  have hcw : ((col : ℚ) + 1) * cw = (col : ℚ) * cw + cw := by ring
  have hch : ((row : ℚ) + 1) * ch = (row : ℚ) * ch + ch := by ring
  simp only [getSafeBox]
  set I := getSafeBoxInsets row col cw ch rows cols meta bp with hI
  split_ifs with hx hy hy <;>
    refine ⟨by dsimp; linarith, by dsimp; linarith, by dsimp; linarith,
      by dsimp; linarith, by dsimp; linarith, by dsimp; linarith⟩

/-- Witness for the amended C10 on a 100x100 cell with no metadata and base
padding 10. -/
theorem getSafeBox_within_cell_witness :
    ((0 : ℚ)) * 100 ≤ (getSafeBox 0 0 100 100 1 1 none (some 10)).left ∧
    (getSafeBox 0 0 100 100 1 1 none (some 10)).left <
      (getSafeBox 0 0 100 100 1 1 none (some 10)).right ∧
    (getSafeBox 0 0 100 100 1 1 none (some 10)).right ≤ ((0 : ℚ) + 1) * 100 := by
  have H := getSafeBox_within_cell 0 0 1 1 100 100 none (some 10) (by norm_num)
    (by norm_num) (fun p hp => by cases hp; norm_num)
    (fun m hm => by cases hm) (fun m hm => by cases hm)
  exact ⟨by exact_mod_cast H.1, H.2.1, by exact_mod_cast H.2.2.1⟩

/-- Claim C5: for a cell whose four adjacent edges all carry metadata, each
side inset of getSafeBox equals the baseline safe padding plus
min(ampPx, 0.18 * relevant cell dimension) exactly when the adjacent edge
bulges into the cell (top edge sign > 0, bottom edge sign < 0, left edge
sign > 0, right edge sign < 0), and the baseline alone otherwise (sign 0 or
bulging away). -/
theorem getSafeBoxInsets_directional (row col rows cols : Nat) (cw ch : ℚ)
    (meta : EdgeMeta) (bp : Option ℚ) (eT eB eL eR : EdgePx)
    (hrow0 : 0 < row) (hrowN : row < rows - 1) (hcol0 : 0 < col) (hcolN : col < cols - 1)
    (hT : lookup2 meta.horizontal row col = some eT)
    (hB : lookup2 meta.horizontal (row + 1) col = some eB)
    (hL : lookup2 meta.vertical col row = some eL)
    (hR : lookup2 meta.vertical (col + 1) row = some eR) :
    (getSafeBoxInsets row col cw ch rows cols (some meta) bp).top =
      getSafePadding cw ch bp + (if 0 < eT.sign then min eT.ampPx (ch * 0.18) else 0) ∧
    (getSafeBoxInsets row col cw ch rows cols (some meta) bp).bottom =
      getSafePadding cw ch bp + (if eB.sign < 0 then min eB.ampPx (ch * 0.18) else 0) ∧
    (getSafeBoxInsets row col cw ch rows cols (some meta) bp).left =
      getSafePadding cw ch bp + (if 0 < eL.sign then min eL.ampPx (cw * 0.18) else 0) ∧
    (getSafeBoxInsets row col cw ch rows cols (some meta) bp).right =
      getSafePadding cw ch bp + (if eR.sign < 0 then min eR.ampPx (cw * 0.18) else 0) := by
  simp only [getSafeBoxInsets, hT, hB, hL, hR, if_pos hrow0, if_pos hrowN,
    if_pos hcol0, if_pos hcolN]
  refine ⟨?_, ?_, ?_, ?_⟩ <;> split_ifs <;> ring

/-- Witness for C5 at cell (1,1) of a 3x3 grid with explicit metadata: the
top and left edges bulge in (sign 1), the bottom and right edges bulge in
(sign -1), so top = 10 + min 5 18 and bottom = 10 + min 7 18. -/
theorem getSafeBoxInsets_directional_witness :
    (getSafeBoxInsets 1 1 100 100 3 3
        (some (⟨[[], [⟨30, 0⟩, ⟨5, 1⟩, ⟨30, 0⟩], [⟨30, 0⟩, ⟨7, -1⟩, ⟨30, 0⟩], []],
          [[], [⟨30, 0⟩, ⟨6, 1⟩, ⟨30, 0⟩], [⟨30, 0⟩, ⟨8, -1⟩, ⟨30, 0⟩], []]⟩ : EdgeMeta))
        (some 10)).top = 15 ∧
    (getSafeBoxInsets 1 1 100 100 3 3
        (some (⟨[[], [⟨30, 0⟩, ⟨5, 1⟩, ⟨30, 0⟩], [⟨30, 0⟩, ⟨7, -1⟩, ⟨30, 0⟩], []],
          [[], [⟨30, 0⟩, ⟨6, 1⟩, ⟨30, 0⟩], [⟨30, 0⟩, ⟨8, -1⟩, ⟨30, 0⟩], []]⟩ : EdgeMeta))
        (some 10)).bottom = 17 := by
  have H := getSafeBoxInsets_directional 1 1 3 3 100 100
    (⟨[[], [⟨30, 0⟩, ⟨5, 1⟩, ⟨30, 0⟩], [⟨30, 0⟩, ⟨7, -1⟩, ⟨30, 0⟩], []],
      [[], [⟨30, 0⟩, ⟨6, 1⟩, ⟨30, 0⟩], [⟨30, 0⟩, ⟨8, -1⟩, ⟨30, 0⟩], []]⟩ : EdgeMeta)
    (some 10) ⟨5, 1⟩ ⟨7, -1⟩ ⟨6, 1⟩ ⟨8, -1⟩
    (by norm_num) (by norm_num) (by norm_num) (by norm_num)
    (by simp [lookup2]) (by simp [lookup2]) (by simp [lookup2]) (by simp [lookup2])
  rw [H.1, H.2.1]
  norm_num [getSafePadding, min_def]

/-- A fold of positional writes preserves the array length. -/
theorem length_foldl_set {α γ : Type} (l : List γ) (g : γ → Nat) (v : γ → α) :
    ∀ acc : List α, (l.foldl (fun a x => a.set (g x) (v x)) acc).length = acc.length := by
  induction l with
  | nil => intro acc; rfl
  | cons x xs ih => intro acc; rw [List.foldl_cons, ih, List.length_set]

/-- A fold of positional writes leaves untouched indices unchanged. -/
theorem get_foldl_set_of_ne {α γ : Type} (l : List γ) (g : γ → Nat) (v : γ → α)
    (j : Nat) (h : ∀ x ∈ l, g x ≠ j) :
    ∀ acc : List α, (l.foldl (fun a x => a.set (g x) (v x)) acc)[j]? = acc[j]? := by
  induction l with
  | nil => intro acc; rfl
  | cons x xs ih =>
    intro acc
    rw [List.foldl_cons, ih (fun y hy => h y (by simp [hy])),
      List.getElem?_set_ne (h x (by simp))]

/-- Distinct rows write to disjoint index blocks. -/
theorem block_ne {r rj cols x d : Nat} (hx : x < cols) (hd : d < cols)
    (hne : r ≠ rj) : r * cols + x ≠ rj * cols + d := by
  intro h
  have hpos : 0 < cols := by omega
  have h1 : (r * cols + x) / cols = r := by
    rw [Nat.add_comm, Nat.mul_comm, Nat.add_mul_div_left _ _ hpos,
      Nat.div_eq_of_lt hx, Nat.zero_add]
  have h2 : (rj * cols + d) / cols = rj := by
    rw [Nat.add_comm, Nat.mul_comm, Nat.add_mul_div_left _ _ hpos,
      Nat.div_eq_of_lt hd, Nat.zero_add]
  exact hne (h1 ▸ h2 ▸ congrArg (· / cols) h)

/-- The inner loop of mirrorFacts: reading back the slot written for source
column c0 of row r. -/
theorem mirror_inner_get (facts : List JStr) (cols r c0 : Nat) :
    ∀ n, c0 < n → n ≤ cols → ∀ acc : List JStr,
      r * cols + (cols - 1 - c0) < acc.length →
      ((List.range n).foldl (fun a c =>
          a.set (r * cols + (cols - 1 - c)) (facts.getD (r * cols + c) []))
        acc)[r * cols + (cols - 1 - c0)]? = some (facts.getD (r * cols + c0) []) := by
  intro n
  induction n with
  | zero => intro h _ acc _; exact absurd h (Nat.not_lt_zero c0)
  | succ n ih =>
    intro hc0 hn acc hlen
    rw [List.range_succ, List.foldl_append, List.foldl_cons, List.foldl_nil]
    by_cases hceq : c0 = n
    · subst hceq
      have hlen2 : ((List.range c0).foldl (fun a c =>
          a.set (r * cols + (cols - 1 - c)) (facts.getD (r * cols + c) []))
          acc).length = acc.length := length_foldl_set _ _ _ acc
      exact List.getElem?_set_self (by rw [hlen2]; exact hlen)
    · have hK : cols - 1 - n ≠ cols - 1 - c0 := by omega
      have hne : r * cols + (cols - 1 - n) ≠ r * cols + (cols - 1 - c0) :=
        fun hEq => hK (Nat.add_left_cancel hEq)
      rw [List.getElem?_set_ne hne, ih (by omega) (by omega) acc hlen]

/-- The outer loop of mirrorFacts preserves the array length. -/
theorem mirror_outer_length (facts : List JStr) (cols : Nat) (rs : List Nat) :
    ∀ acc : List JStr,
      (rs.foldl (fun acc r => (List.range cols).foldl (fun a c =>
          a.set (r * cols + (cols - 1 - c)) (facts.getD (r * cols + c) [])) acc)
        acc).length = acc.length := by
  induction rs with
  | nil => intro acc; rfl
  | cons r rs ih => intro acc; rw [List.foldl_cons, ih, length_foldl_set]

/-- The outer loop of mirrorFacts: reading back the slot of row rj, source
column cj. -/
theorem mirror_outer_get (facts : List JStr) (cols rj cj : Nat) (hcj : cj < cols) :
    ∀ m, rj < m → ∀ acc : List JStr, rj * cols + (cols - 1 - cj) < acc.length →
      ((List.range m).foldl (fun acc r => (List.range cols).foldl (fun a c =>
          a.set (r * cols + (cols - 1 - c)) (facts.getD (r * cols + c) [])) acc)
        acc)[rj * cols + (cols - 1 - cj)]? = some (facts.getD (rj * cols + cj) []) := by
  intro m
  induction m with
  | zero => intro h acc _; exact absurd h (Nat.not_lt_zero rj)
  | succ m ih =>
    intro hm acc hlen
    rw [List.range_succ, List.foldl_append, List.foldl_cons, List.foldl_nil]
    by_cases hreq : rj = m
    · subst hreq
      exact mirror_inner_get facts cols rj cj cols hcj le_rfl _
        (by rw [mirror_outer_length]; exact hlen)
    · have hnotouch : ∀ c ∈ List.range cols,
          m * cols + (cols - 1 - c) ≠ rj * cols + (cols - 1 - cj) := by
        intro c hc
        have hclt : c < cols := List.mem_range.mp hc
        exact block_ne (by omega) (by omega) (fun hh => hreq hh.symm)
      rw [get_foldl_set_of_ne _ _ _ _ hnotouch, ih (by omega) acc hlen]

/-- mirrorFacts preserves the number of slots. -/
theorem mirrorFacts_length (facts : List JStr) (rows cols : Nat) :
    (mirrorFacts facts rows cols).length = facts.length := by
  rw [mirrorFacts, mirror_outer_length, List.length_replicate]

/-- The index written by row rj and source column cj is inside a rows*cols
array. -/
theorem mirror_index_lt {rows cols rj cj : Nat} (hrj : rj < rows) (hcj : cj < cols) :
    rj * cols + (cols - 1 - cj) < rows * cols := by
  have h1 : cols - 1 - cj < cols := by omega
  calc rj * cols + (cols - 1 - cj) < rj * cols + cols := Nat.add_lt_add_left h1 _
    _ = (rj + 1) * cols := by ring
    _ ≤ rows * cols := Nat.mul_le_mul_right cols hrj

/-- The slot characterization of mirrorFacts: for a fully populated grid, the
back slot rj*cols + (cols-1-cj) holds the front fact rj*cols + cj. -/
theorem mirrorFacts_get (facts : List JStr) (rows cols rj cj : Nat)
    (hlen : facts.length = rows * cols) (hrj : rj < rows) (hcj : cj < cols) :
    (mirrorFacts facts rows cols)[rj * cols + (cols - 1 - cj)]? =
      some (facts.getD (rj * cols + cj) []) := by
  rw [mirrorFacts]
  exact mirror_outer_get facts cols rj cj hcj rows hrj _
    (by rw [List.length_replicate, hlen]; exact mirror_index_lt hrj hcj)

/-- Claim C3: for a fully populated fact list (length rows*cols, non-empty
facts), mirrorFacts is an involution, and a single application sends the fact
at front index r*cols + c to back index r*cols + (cols-1-c). -/
theorem mirrorFacts_involution (facts : List JStr) (rows cols : Nat)
    (hr : 1 ≤ rows) (hc : 1 ≤ cols) (hlen : facts.length = rows * cols)
    (hne : ∀ f ∈ facts, f ≠ []) :
    mirrorFacts (mirrorFacts facts rows cols) rows cols = facts ∧
    (∀ r c, r < rows → c < cols →
      (mirrorFacts facts rows cols)[r * cols + (cols - 1 - c)]? =
        facts[r * cols + c]?) := by
  have hgetD : ∀ r c, r < rows → c < cols →
      facts.getD (r * cols + c) [] = (facts[r * cols + c]?).getD [] := by
    intro r c hrlt hclt
    rw [List.getD_eq_getElem?_getD]
  have hsome : ∀ r c, r < rows → c < cols → ∃ v, facts[r * cols + c]? = some v := by
    intro r c hrlt hclt
    have hidx : r * cols + c < facts.length := by
      rw [hlen]
      have h1 : c < cols := hclt
      calc r * cols + c < r * cols + cols := Nat.add_lt_add_left h1 _
        _ = (r + 1) * cols := by ring
        _ ≤ rows * cols := Nat.mul_le_mul_right cols hrlt
    rcases hv : facts[r * cols + c]? with _ | v
    · rw [List.getElem?_eq_none_iff] at hv
      exact absurd hidx (Nat.not_lt.mpr hv)
    · exact ⟨v, rfl⟩
  have hpart2 : ∀ r c, r < rows → c < cols →
      (mirrorFacts facts rows cols)[r * cols + (cols - 1 - c)]? =
        facts[r * cols + c]? := by
    intro r c hrlt hclt
    rw [mirrorFacts_get facts rows cols r c hlen hrlt hclt, hgetD r c hrlt hclt]
    obtain ⟨v, hv⟩ := hsome r c hrlt hclt
    rw [hv]
    rfl
  refine ⟨?_, hpart2⟩
  have hMlen : (mirrorFacts facts rows cols).length = rows * cols := by
    rw [mirrorFacts_length, hlen]
  have hM2len : (mirrorFacts (mirrorFacts facts rows cols) rows cols).length =
      rows * cols := by
    rw [mirrorFacts_length, hMlen]
  apply List.ext_getElem?
  intro j
  by_cases hj : j < rows * cols
  · have hcpos : 0 < cols := by omega
    have hmod : j % cols < cols := Nat.mod_lt _ hcpos
    have hdiv : j / cols < rows := by
      rw [Nat.div_lt_iff_lt_mul hcpos]
      calc j < rows * cols := hj
        _ = rows * cols := rfl
    have hdecomp : j = (j / cols) * cols + j % cols := by
      rw [Nat.mul_comm]
      exact (Nat.div_add_mod j cols).symm
    have hop : cols - 1 - (cols - 1 - j % cols) = j % cols := by omega
    have hop_lt : cols - 1 - j % cols < cols := by omega
    have hget1 := mirrorFacts_get (mirrorFacts facts rows cols) rows cols (j / cols)
      (cols - 1 - j % cols) hMlen hdiv hop_lt
    rw [hop] at hget1
    have hget2 := mirrorFacts_get facts rows cols (j / cols) (j % cols) hlen hdiv hmod
    have hMgetD : (mirrorFacts facts rows cols).getD
        (j / cols * cols + (cols - 1 - j % cols)) [] =
        facts.getD (j / cols * cols + j % cols) [] := by
      rw [List.getD_eq_getElem?_getD, hget2]
      rfl
    rw [hMgetD] at hget1
    rw [← hdecomp] at hget1
    rw [hget1]
    rw [List.getD_eq_getElem?_getD]
    have hjlen : j < facts.length := by rw [hlen]; exact hj
    rcases hfj : facts[j]? with _ | v
    · rw [List.getElem?_eq_none_iff] at hfj
      exact absurd hjlen (Nat.not_lt.mpr hfj)
    · rfl
  · rw [List.getElem?_eq_none (by rw [hM2len]; omega),
      List.getElem?_eq_none (by rw [hlen]; omega)]

/-- Witness for C3 on the 1x2 fact list [ab, cd]: double mirroring restores
the list and slot 1 of the mirrored list holds fact 0. -/
theorem mirrorFacts_involution_witness :
    mirrorFacts (mirrorFacts [ "ab".toList, "cd".toList ] 1 2) 1 2 =
      [ "ab".toList, "cd".toList ] ∧
    (mirrorFacts [ "ab".toList, "cd".toList ] 1 2)[0 * 2 + (2 - 1 - 0)]? =
      [ "ab".toList, "cd".toList ][0 * 2 + 0]? := by
  have H := mirrorFacts_involution [ "ab".toList, "cd".toList ] 1 2 (by norm_num)
    (by norm_num) (by decide) (by decide)
  exact ⟨H.1, H.2 0 0 (by norm_num) (by norm_num)⟩

/-- Claim C6: autoRewriteFact works through the fixed candidate list - the
original text, each sentence in order, each clause in order, then the
stopword-filtered text guarded by the 60 percent retention check - and
returns the first candidate whose fit is untruncated, with changed true
exactly when the returned text differs from the input; when no candidate
fits it returns failed = true with the original text and its fit. -/
theorem autoRewriteFact_first_success (textToSvg : Option (JStr → ℤ → ℚ))
    (text : JStr) (safeBox : CellSafeBox) (fontScale : ℚ) :
    autoRewriteFact textToSvg text safeBox fontScale =
      (match (autoRewriteCandidates text).find?
          (fun c => !(rewriteTryFit textToSvg safeBox fontScale c).truncated) with
       | some c =>
         { text := c, changed := decide (c ≠ text),
           fit := rewriteTryFit textToSvg safeBox fontScale c, failed := false }
       | none =>
         { text := text, changed := false,
           fit := rewriteTryFit textToSvg safeBox fontScale text, failed := true }) := by
  cases htr : (rewriteTryFit textToSvg safeBox fontScale text).truncated with
  | false => simp [autoRewriteFact, autoRewriteCandidates, htr]
  | true =>
    cases hS : (splitSentences text).find?
        (fun c => !(rewriteTryFit textToSvg safeBox fontScale c).truncated) with
    | some s =>
      have hs_ne : s ≠ text := by
        have hps := List.find?_some hS
        simp only [Bool.not_eq_true'] at hps
        intro hEq
        rw [hEq, htr] at hps
        cases hps
      simp [autoRewriteFact, autoRewriteCandidates, htr, hS, hs_ne]
    | none =>
      cases hC : (splitClauses text).find?
          (fun c => !(rewriteTryFit textToSvg safeBox fontScale c).truncated) with
      | some c =>
        have hc_ne : c ≠ text := by
          have hpc := List.find?_some hC
          simp only [Bool.not_eq_true'] at hpc
          intro hEq
          rw [hEq, htr] at hpc
          cases hpc
        simp [autoRewriteFact, autoRewriteCandidates, htr, hS, hC, hc_ne]
      | none =>
        by_cases hf : filterStopwords (splitWs text) = []
        · simp [autoRewriteFact, autoRewriteCandidates, htr, hS, hC, hf]
        · by_cases hr6 : (0.6 : ℚ) ≤
              ((List.intercalate [' '] (filterStopwords (splitWs text))).length : ℚ) /
                max 1 (text.length : ℚ)
          · cases hcand : (rewriteTryFit textToSvg safeBox fontScale
                (List.intercalate [' '] (filterStopwords (splitWs text)))).truncated with
            | false =>
              have hcand_ne :
                  List.intercalate [' '] (filterStopwords (splitWs text)) ≠ text := by
                intro hEq
                rw [hEq, htr] at hcand
                cases hcand
              simp [autoRewriteFact, autoRewriteCandidates, htr, hS, hC, hf, hr6,
                hcand, hcand_ne]
            | true =>
              simp [autoRewriteFact, autoRewriteCandidates, htr, hS, hC, hf, hr6, hcand]
          · simp [autoRewriteFact, autoRewriteCandidates, htr, hS, hC, hf, hr6]

/-- Claim C1: for every fixed tuple (width, height, rows, cols, seed) with
rows ≥ 1, cols ≥ 1 and a finite seed, any two calls to buildPuzzleData
return identical ordered path lists and identical edgeMeta contents (the
same ampPx and sign at every horizontal and vertical index).  The geometry
build instantiates its own generator state from the seed alone, so the
result is a pure function of its five arguments. -/
theorem buildPuzzleData_deterministic (width height : ℚ) (rows cols seed : Nat)
    (hr : 1 ≤ rows) (hc : 1 ≤ cols) :
    (buildPuzzleData width height rows cols seed).paths =
      (buildPuzzleData width height rows cols seed).paths ∧
    (∀ i j, lookup2 (buildPuzzleData width height rows cols seed).edgeMeta.horizontal i j =
      lookup2 (buildPuzzleData width height rows cols seed).edgeMeta.horizontal i j) ∧
    (∀ i j, lookup2 (buildPuzzleData width height rows cols seed).edgeMeta.vertical i j =
      lookup2 (buildPuzzleData width height rows cols seed).edgeMeta.vertical i j) :=
  ⟨rfl, fun _ _ => rfl, fun _ _ => rfl⟩

/-- Witness for C1 at the end-to-end instance of the spec (1200x900, 3x4,
seed 42). -/
theorem buildPuzzleData_deterministic_witness :
    (1 ≤ 3 ∧ 1 ≤ 4) ∧
    (buildPuzzleData 1200 900 3 4 42).paths = (buildPuzzleData 1200 900 3 4 42).paths ∧
    lookup2 (buildPuzzleData 1200 900 3 4 42).edgeMeta.horizontal 1 2 =
      lookup2 (buildPuzzleData 1200 900 3 4 42).edgeMeta.horizontal 1 2 :=
  ⟨⟨by norm_num, by norm_num⟩,
    (buildPuzzleData_deterministic 1200 900 3 4 42 (by norm_num) (by norm_num)).1,
    (buildPuzzleData_deterministic 1200 900 3 4 42 (by norm_num) (by norm_num)).2.1 1 2⟩

/-- Claim C2 (code bug): a single word of 30 letters measures 216 px at the
minimum font size 12 (fallback metrics), far beyond the 30 px available in a
50x50 cell with padding 10, and wrapTextByWidth duly reports it truncated
with reason word_too_long; yet fitTextToCell returns truncated = false,
because it recomputes truncation from the wrapped line count alone and drops
the truncated flag of wrapTextByWidth. -/
theorem fitTextToCell_word_too_long :
    let w : JStr := List.replicate 30 'a'
    ((30 : ℚ) < measureTextWidth none w MIN_FONT_SIZE) ∧
    (wrapTextByWidth none w 30 MIN_FONT_SIZE).truncated = true ∧
    (fitTextToCell none w 50 50 (some 10) 1).truncated = false := by
  intro w
  have hsplit : splitWs w = [w] := by
    have hnows : ∀ c ∈ w, isWs c = false := by
      intro c hc
      have : c = 'a' := (List.eq_of_mem_replicate hc)
      subst this
      decide
    have hne : w ≠ [] := by simp [w]
    simp [splitWs, splitBy_eq_single w hnows, hne]
  have hlen : (w.length : ℚ) = 30 := by simp [w]
  have hwrap : ∀ fs : ℤ, 12 ≤ fs →
      wrapTextByWidth none w 30 fs =
        { lines := [w], truncated := true, reason := some wordTooLong } := by
    intro fs hfs
    have hbig : ¬ (measureTextWidth none w fs ≤ 30) := by
      simp only [measureTextWidth, hlen, not_le]
      have : (12 : ℚ) ≤ (fs : ℚ) := by exact_mod_cast hfs
      nlinarith
    have hne : w ≠ [] := by simp [w]
    rw [wrapTextByWidth, hsplit]
    simp [hne, wrapWords, hbig]
  constructor
  · have := hwrap MIN_FONT_SIZE (by norm_num [MIN_FONT_SIZE])
    simp only [measureTextWidth, hlen, MIN_FONT_SIZE]
    norm_num
  constructor
  · rw [hwrap MIN_FONT_SIZE (by norm_num [MIN_FONT_SIZE])]
  · rw [fitTextToCell]
    have h1 : (max 10 MIN_FONT_SIZE : ℤ) = 12 := by norm_num [MIN_FONT_SIZE, max_def]
    have h2 : (⌊((MAX_FONT_SIZE : ℚ)) * 1⌋ : ℤ) = 28 := by
      norm_num [MAX_FONT_SIZE]
    have h3 : (⌊(min (50 : ℚ) 50) * 0.2 * 1⌋ : ℤ) = 10 := by
      norm_num
    simp only [h1, h2, h3]
    have h4 : (min (max 12 28) (max 12 10) : ℤ) = 12 := by norm_num [max_def, min_def]
    rw [h4, show (40 : ℕ) = 39 + 1 from rfl, fitLoop]
    have h5 : ¬ ((12 : ℤ) < 12) := by norm_num
    simp only [h5, if_false]
    have h6 : (max 10 (50 - 10 * 2) : ℚ) = 30 := by norm_num [max_def]
    rw [h6, hwrap 12 le_rfl]
    simp [max_lt_iff]

/-- Counterexample to claim C9 as stated: at rows = 1, cols = 1 the path list
of buildPuzzleData has (rows+1)*cols + (cols+1)*rows = 4 entries, not
1 + (rows+1)*cols + (cols+1)*rows = 5: there is no separate outer-rectangle
path, the border edge segments themselves are the outer rectangle. -/
theorem buildPuzzleData_paths_count_cex :
    ¬ ((buildPuzzleData 100 100 1 1 0).paths.length = 1 + (1 + 1) * 1 + (1 + 1) * 1) := by
  rw [buildPuzzleData]
  simp [buildDistributions, sampleEdgeRows, offsetPoints, flatEdgeLine, lineToPath,
    List.reduceOption]

/-- Counterexample to claim C10 as stated: with a malformed metadata entry
whose ampPx is -10000 (sign -1) on the edge below cell (0,0), the bottom
inset becomes 10 + min(-10000, 18) = -9990 and the returned box reaches
bottom = 10090, far below the raw cell bottom (row+1)*cellHeight = 100, so
the box does not lie inside the raw cell for arbitrary (malformed) metadata. -/
theorem getSafeBox_outside_cell_cex :
    ¬ ((getSafeBox 0 0 100 100 2 1
          (some { horizontal := [[], [{ ampPx := -10000, sign := -1 }], []], vertical := [] })
          (some 10)).bottom ≤ ((0 : ℚ) + 1) * 100) := by
  rw [getSafeBox, getSafeBoxInsets]
  norm_num [getSafePadding, lookup2, min_def]

end PuzzleBot

